import Mathlib

/-!
Shallow embedding of the T9-Keyboard-for-TESLA-meshtastic firmware
(the full protocol variant, `part_000`): the I2C event-queue responder,
the matrix scanner, and the sleep/wake control loop.

Machine bytes are modelled as `Nat` (all values written by the code are
below 256).  The 16-byte array `i2cBuffer` is modelled as a function
`Nat → Nat` together with the write index; every store in the source is
guarded by a bounds check, so the function model writes exactly the cells
the array code writes.
-/

/-- Constant from the source: `#define I2C_BUFFER_SIZE 16`. -/
def I2C_BUFFER_SIZE : Nat := 16

/-- Constant from the source: `const uint8_t ROW_COUNT = 4`. -/
def ROW_COUNT : Nat := 4

/-- Constant from the source: `const uint8_t COL_COUNT = 3`. -/
def COL_COUNT : Nat := 3

/-- The shared I2C/queue state of the firmware: `currentRegister`,
`i2cBuffer`, `i2cWriteIndex`, `newKeyEvent` (volatile globals in the
source). -/
structure DevState where
  currentRegister : Nat
  i2cBuffer : Nat → Nat
  i2cWriteIndex : Nat
  newKeyEvent : Bool

/-- One unguarded store `i2cBuffer[i2cWriteIndex++] = v`. -/
def writeByte (s : DevState) (v : Nat) : DevState :=
  { s with
    i2cBuffer := fun j => if j = s.i2cWriteIndex then v else s.i2cBuffer j,
    i2cWriteIndex := s.i2cWriteIndex + 1 }

/-- `queueKeyEvent(keyIndex, pressed)` from the source: store the two-byte
event `[keyIndex, pressed ? 0x80 : 0x00]` only when both bytes fit
(`i2cWriteIndex + 2 <= I2C_BUFFER_SIZE`), and set `newKeyEvent`. -/
def queueKeyEvent (s : DevState) (keyIndex pressed : Nat) : DevState :=
  if s.i2cWriteIndex + 2 ≤ I2C_BUFFER_SIZE then
    { writeByte (writeByte s keyIndex) (if pressed ≠ 0 then 0x80 else 0x00)
      with newKeyEvent := true }
  else
    s

/-- One iteration of the `while` loop in `onI2CReceive`: the data byte is
stored only when `i2cWriteIndex < I2C_BUFFER_SIZE`. -/
def receiveData (t : DevState) (d : Nat) : DevState :=
  if t.i2cWriteIndex < I2C_BUFFER_SIZE then writeByte t d else t

/-- `onI2CReceive(byteCount)` from the source, with the bytes of the bus
transaction given as the list `data`: the first byte selects
`currentRegister`; each following byte is stored into `i2cBuffer` at
`i2cWriteIndex` when `i2cWriteIndex < I2C_BUFFER_SIZE`. -/
def onI2CReceive (data : List Nat) (s : DevState) : DevState :=
  match data with
  | [] => s
  | r :: rest => rest.foldl receiveData { s with currentRegister := r }

/-- The bytes the device would send for the event-buffer register:
`Wire.write(i2cBuffer, i2cWriteIndex)`, i.e. the first `i2cWriteIndex`
cells of the buffer in order. -/
def readBytes (s : DevState) : List Nat :=
  (List.range s.i2cWriteIndex).map s.i2cBuffer

/-- `onI2CRequest()` from the source: returns the bytes written on the bus
together with the post-transaction state.  Register `0x90` answers the
single byte `0x00`; register `0x84` answers the queued bytes and resets
`i2cWriteIndex` to 0; any other register answers the single byte `0x00`. -/
def onI2CRequest (s : DevState) : List Nat × DevState :=
  if s.currentRegister = 0x90 then
    ([0x00], s)
  else if s.currentRegister = 0x84 then
    (readBytes s, { s with i2cWriteIndex := 0 })
  else
    ([0x00], s)

/-- Wire encoding of one key event, as `queueKeyEvent` stores it. -/
def encodeEvent (e : Nat × Nat) : List Nat :=
  [e.1, if e.2 ≠ 0 then 0x80 else 0x00]

/-- Enqueue a list of key events in order (repeated `queueKeyEvent` calls). -/
def enqueueAll (es : List (Nat × Nat)) (s : DevState) : DevState :=
  es.foldl (fun t e => queueKeyEvent t e.1 e.2) s

/-- A device state with an empty queue and a zeroed buffer. -/
def emptyDev : DevState :=
  { currentRegister := 0, i2cBuffer := fun _ => 0, i2cWriteIndex := 0,
    newKeyEvent := false }

-- Basic lemmas about the byte store.

lemma writeByte_readBytes (s : DevState) (v : Nat) :
    readBytes (writeByte s v) = readBytes s ++ [v] := by
  simp only [readBytes, writeByte, List.range_succ, List.map_append,
    List.map_cons, List.map_nil, if_pos rfl]
  congr 1
  apply List.map_congr_left
  intro j hj
  have hlt : j < s.i2cWriteIndex := List.mem_range.mp hj
  simp [Nat.ne_of_lt hlt]

lemma writeByte_index (s : DevState) (v : Nat) :
    (writeByte s v).i2cWriteIndex = s.i2cWriteIndex + 1 := rfl

lemma writeByte_reg (s : DevState) (v : Nat) :
    (writeByte s v).currentRegister = s.currentRegister := rfl

lemma queueKeyEvent_fits (s : DevState) (k p : Nat)
    (h : s.i2cWriteIndex + 2 ≤ I2C_BUFFER_SIZE) :
    readBytes (queueKeyEvent s k p) = readBytes s ++ encodeEvent (k, p) ∧
    (queueKeyEvent s k p).i2cWriteIndex = s.i2cWriteIndex + 2 ∧
    (queueKeyEvent s k p).currentRegister = s.currentRegister := by
  unfold queueKeyEvent
  rw [if_pos h]
  refine ⟨?_, rfl, rfl⟩
  show readBytes (writeByte (writeByte s k) (if p ≠ 0 then 0x80 else 0x00)) = _
  rw [writeByte_readBytes, writeByte_readBytes, encodeEvent, List.append_assoc]
  rfl

lemma queueKeyEvent_drop (s : DevState) (k p : Nat)
    (h : ¬ s.i2cWriteIndex + 2 ≤ I2C_BUFFER_SIZE) :
    queueKeyEvent s k p = s := by
  unfold queueKeyEvent
  rw [if_neg h]

lemma onI2CRequest_eventBuffer (s : DevState) (h : s.currentRegister = 0x84) :
    (onI2CRequest s).1 = readBytes s ∧
    (onI2CRequest s).2 = { s with i2cWriteIndex := 0 } := by
  unfold onI2CRequest
  rw [if_neg (by rw [h]; decide), if_pos h]
  exact ⟨rfl, rfl⟩

lemma enqueueAll_spec (es : List (Nat × Nat)) :
    ∀ s : DevState, s.i2cWriteIndex + 2 * es.length ≤ I2C_BUFFER_SIZE →
    readBytes (enqueueAll es s) = readBytes s ++ es.flatMap encodeEvent ∧
    (enqueueAll es s).i2cWriteIndex = s.i2cWriteIndex + 2 * es.length ∧
    (enqueueAll es s).currentRegister = s.currentRegister := by
  induction es with
  | nil => intro s _; simp [enqueueAll]
  | cons e rest ih =>
      intro s h
      have hfit : s.i2cWriteIndex + 2 ≤ I2C_BUFFER_SIZE := by
        simp only [List.length_cons] at h; omega
      obtain ⟨hb, hi, hr⟩ := queueKeyEvent_fits s e.1 e.2 hfit
      have hrest : (queueKeyEvent s e.1 e.2).i2cWriteIndex + 2 * rest.length
          ≤ I2C_BUFFER_SIZE := by
        rw [hi]; simp only [List.length_cons] at h; omega
      obtain ⟨ihb, ihi, ihr⟩ := ih (queueKeyEvent s e.1 e.2) hrest
      have hfold : enqueueAll (e :: rest) s
          = enqueueAll rest (queueKeyEvent s e.1 e.2) := rfl
      refine ⟨?_, ?_, ?_⟩
      · rw [hfold, ihb, hb, List.flatMap_cons, List.append_assoc]
      · rw [hfold, ihi, hi, List.length_cons]; ring
      · rw [hfold, ihr, hr]

lemma receiveAll_spec (d : List Nat) :
    ∀ t : DevState, t.i2cWriteIndex + d.length ≤ I2C_BUFFER_SIZE →
    readBytes (d.foldl receiveData t) = readBytes t ++ d ∧
    (d.foldl receiveData t).i2cWriteIndex = t.i2cWriteIndex + d.length ∧
    (d.foldl receiveData t).currentRegister = t.currentRegister := by
  induction d with
  | nil => intro t _; simp
  | cons v rest ih =>
      intro t h
      have hlt : t.i2cWriteIndex < I2C_BUFFER_SIZE := by
        simp only [List.length_cons] at h; omega
      have hstep : receiveData t v = writeByte t v := if_pos hlt
      have hrest : (writeByte t v).i2cWriteIndex + rest.length
          ≤ I2C_BUFFER_SIZE := by
        rw [writeByte_index]; simp only [List.length_cons] at h; omega
      obtain ⟨ihb, ihi, ihr⟩ := ih (writeByte t v) hrest
      have hfold : (v :: rest).foldl receiveData t
          = rest.foldl receiveData (writeByte t v) := by
        rw [List.foldl_cons, hstep]
      refine ⟨?_, ?_, ?_⟩
      · rw [hfold, ihb, writeByte_readBytes, List.append_assoc]; rfl
      · rw [hfold, ihi, writeByte_index, List.length_cons]; ring
      · rw [hfold, ihr, writeByte_reg]

lemma receiveFold_bound (d : List Nat) :
    ∀ t : DevState, t.i2cWriteIndex ≤ I2C_BUFFER_SIZE →
    (d.foldl receiveData t).i2cWriteIndex ≤ I2C_BUFFER_SIZE := by
  induction d with
  | nil => intro t h; exact h
  | cons v rest ih =>
      intro t h
      rw [List.foldl_cons]
      refine ih (receiveData t v) ?_
      unfold receiveData
      split
      · rw [writeByte_index]; omega
      · exact h

/-- Claim C1: for every queue state with the event-buffer register (0x84)
selected, a bus read returns exactly the bytes enqueued since the previous
event-buffer read, in FIFO order, resets the queue to empty, and a second
immediate read with no intervening enqueues returns zero bytes. -/
theorem eventBufferRead_fifo_clear (s : DevState) (es : List (Nat × Nat))
    (hreg : s.currentRegister = 0x84)
    (hfit : 2 * es.length ≤ I2C_BUFFER_SIZE) :
    (onI2CRequest (enqueueAll es (onI2CRequest s).2)).1 = es.flatMap encodeEvent ∧
    (onI2CRequest (enqueueAll es (onI2CRequest s).2)).2.i2cWriteIndex = 0 ∧
    (onI2CRequest ((onI2CRequest (enqueueAll es (onI2CRequest s).2)).2)).1 = [] := by
  obtain ⟨_, h2⟩ := onI2CRequest_eventBuffer s hreg
  have h1idx : (onI2CRequest s).2.i2cWriteIndex = 0 := by rw [h2]
  have h1reg : (onI2CRequest s).2.currentRegister = 0x84 := by rw [h2]; exact hreg
  have h1rb : readBytes (onI2CRequest s).2 = [] := by
    unfold readBytes; rw [h1idx]; rfl
  obtain ⟨hb, hi, hr⟩ := enqueueAll_spec es (onI2CRequest s).2 (by omega)
  have hreg2 : (enqueueAll es (onI2CRequest s).2).currentRegister = 0x84 := by
    rw [hr, h1reg]
  obtain ⟨hrb2, hst2⟩ := onI2CRequest_eventBuffer _ hreg2
  have hidx0 :
      (onI2CRequest (enqueueAll es (onI2CRequest s).2)).2.i2cWriteIndex = 0 := by
    rw [hst2]
  refine ⟨?_, hidx0, ?_⟩
  · rw [hrb2, hb, h1rb, List.nil_append]
  · have hreg3 :
        (onI2CRequest (enqueueAll es (onI2CRequest s).2)).2.currentRegister
          = 0x84 := by
      rw [hst2]; exact hreg2
    obtain ⟨hrb3, _⟩ := onI2CRequest_eventBuffer _ hreg3
    rw [hrb3]
    unfold readBytes
    rw [hidx0]
    rfl

/-- A concrete state with register 0x84 selected and four queued bytes. -/
def devC1 : DevState :=
  { emptyDev with currentRegister := 0x84, i2cWriteIndex := 4 }

/-- Witness for C1 at a concrete state and event list. -/
theorem eventBufferRead_fifo_clear_witness :
    devC1.currentRegister = 0x84 ∧
    2 * ([(5, 1), (2, 0)] : List (Nat × Nat)).length ≤ I2C_BUFFER_SIZE ∧
    ((onI2CRequest (enqueueAll [(5, 1), (2, 0)] (onI2CRequest devC1).2)).1
      = ([(5, 1), (2, 0)] : List (Nat × Nat)).flatMap encodeEvent ∧
     (onI2CRequest (enqueueAll [(5, 1), (2, 0)]
        (onI2CRequest devC1).2)).2.i2cWriteIndex = 0 ∧
     (onI2CRequest ((onI2CRequest (enqueueAll [(5, 1), (2, 0)]
        (onI2CRequest devC1).2)).2)).1 = []) :=
  ⟨rfl, by decide,
    eventBufferRead_fifo_clear devC1 [(5, 1), (2, 0)] rfl (by decide)⟩

/-- Claim C6: for every queue state with fewer than 2 free bytes, enqueuing
an event leaves the whole state (buffered bytes and write index) unchanged
and drops the new event in full. -/
theorem queueKeyEvent_overflow_drop (s : DevState) (k p : Nat)
    (h : I2C_BUFFER_SIZE - s.i2cWriteIndex < 2) :
    queueKeyEvent s k p = s :=
  queueKeyEvent_drop s k p (by simp only [I2C_BUFFER_SIZE] at h ⊢; omega)

/-- A concrete queue state with write index 15 (one free byte). -/
def devFull : DevState := { emptyDev with i2cWriteIndex := 15 }

/-- Witness for C6 at a concrete nearly-full state. -/
theorem queueKeyEvent_overflow_drop_witness :
    I2C_BUFFER_SIZE - devFull.i2cWriteIndex < 2 ∧
    queueKeyEvent devFull 7 1 = devFull :=
  ⟨by decide, queueKeyEvent_overflow_drop devFull 7 1 (by decide)⟩

/-- Claim C8: for every queue state (hence after any prior sequence of
writes) with the identification-probe register (0x90) selected, a bus read
returns the single byte 0x00 and leaves the whole state unchanged. -/
theorem identProbeRead (s : DevState) (h : s.currentRegister = 0x90) :
    (onI2CRequest s).1 = [0x00] ∧ (onI2CRequest s).2 = s := by
  unfold onI2CRequest
  rw [if_pos h]
  exact ⟨rfl, rfl⟩

/-- A concrete state with register 0x90 selected and three queued bytes. -/
def devProbe : DevState :=
  { emptyDev with currentRegister := 0x90, i2cWriteIndex := 3 }

/-- Witness for C8 at a concrete state. -/
theorem identProbeRead_witness :
    devProbe.currentRegister = 0x90 ∧
    ((onI2CRequest devProbe).1 = [0x00] ∧ (onI2CRequest devProbe).2 = devProbe) :=
  ⟨rfl, identProbeRead devProbe rfl⟩

/-- Claim C9: starting from an empty queue, enqueuing a press of key 5 then
a release of key 5, selecting the event-buffer register and reading returns
exactly the bytes [5, 0x80, 5, 0x00]. -/
theorem pressRelease5_readback :
    (onI2CRequest (onI2CReceive [0x84]
      (queueKeyEvent (queueKeyEvent emptyDev 5 1) 5 0))).1
      = [5, 0x80, 5, 0x00] := by decide

/-- Claim C10: for every queue state with at least 2 free bytes, enqueuing
(keyIndex, pressed) appends exactly the bytes
[keyIndex, pressed ? 0x80 : 0x00], increases the write index by exactly 2,
and leaves every previously buffered byte unchanged. -/
theorem queueKeyEvent_appends (s : DevState) (k p : Nat)
    (h : s.i2cWriteIndex + 2 ≤ I2C_BUFFER_SIZE) :
    readBytes (queueKeyEvent s k p)
      = readBytes s ++ [k, if p ≠ 0 then 0x80 else 0x00] ∧
    (queueKeyEvent s k p).i2cWriteIndex = s.i2cWriteIndex + 2 ∧
    ∀ j, j < s.i2cWriteIndex → (queueKeyEvent s k p).i2cBuffer j = s.i2cBuffer j := by
  obtain ⟨hb, hi, _⟩ := queueKeyEvent_fits s k p h
  refine ⟨hb, hi, ?_⟩
  intro j hj
  have h1 : j ≠ s.i2cWriteIndex := by omega
  have h2 : j ≠ s.i2cWriteIndex + 1 := by omega
  unfold queueKeyEvent
  rw [if_pos h]
  show (writeByte (writeByte s k) (if p ≠ 0 then 0x80 else 0x00)).i2cBuffer j
      = s.i2cBuffer j
  simp only [writeByte]
  rw [if_neg h2, if_neg h1]

/-- A concrete queue state with two queued bytes. -/
def devHalf : DevState :=
  { emptyDev with i2cBuffer := fun j => if j = 0 then 9 else if j = 1 then 0x80 else 0, i2cWriteIndex := 2 }

/-- Witness for C10 at a concrete state. -/
theorem queueKeyEvent_appends_witness :
    devHalf.i2cWriteIndex + 2 ≤ I2C_BUFFER_SIZE ∧
    (readBytes (queueKeyEvent devHalf 5 1)
      = readBytes devHalf ++ [5, if (1 : Nat) ≠ 0 then 0x80 else 0x00] ∧
    (queueKeyEvent devHalf 5 1).i2cWriteIndex = devHalf.i2cWriteIndex + 2 ∧
    ∀ j, j < devHalf.i2cWriteIndex →
      (queueKeyEvent devHalf 5 1).i2cBuffer j = devHalf.i2cBuffer j) :=
  ⟨by decide, queueKeyEvent_appends devHalf 5 1 (by decide)⟩

/-- Claim C7: the write index never exceeds the capacity (16): each of the
three mutating operations (event enqueue, write-transaction data capture,
bus read) preserves the invariant i2cWriteIndex ≤ I2C_BUFFER_SIZE. -/
theorem writeIndex_bounded (s : DevState) (h : s.i2cWriteIndex ≤ I2C_BUFFER_SIZE) :
    (∀ k p, (queueKeyEvent s k p).i2cWriteIndex ≤ I2C_BUFFER_SIZE) ∧
    (∀ data, (onI2CReceive data s).i2cWriteIndex ≤ I2C_BUFFER_SIZE) ∧
    (onI2CRequest s).2.i2cWriteIndex ≤ I2C_BUFFER_SIZE := by
  refine ⟨?_, ?_, ?_⟩
  · intro k p
    unfold queueKeyEvent
    split
    · next hfit => simpa [writeByte] using hfit
    · exact h
  · intro data
    cases data with
    | nil => exact h
    | cons r rest => exact receiveFold_bound rest _ h
  · unfold onI2CRequest
    split
    · exact h
    · split
      · simp
      · exact h

/-- Witness for C7 at a concrete state. -/
theorem writeIndex_bounded_witness :
    devHalf.i2cWriteIndex ≤ I2C_BUFFER_SIZE ∧
    ((∀ k p, (queueKeyEvent devHalf k p).i2cWriteIndex ≤ I2C_BUFFER_SIZE) ∧
     (∀ data, (onI2CReceive data devHalf).i2cWriteIndex ≤ I2C_BUFFER_SIZE) ∧
     (onI2CRequest devHalf).2.i2cWriteIndex ≤ I2C_BUFFER_SIZE) :=
  ⟨by decide, writeIndex_bounded devHalf (by decide)⟩

/-- Counterexample to claim C3: a write transaction selecting the
event-buffer register with one trailing data byte 171 stores that byte
into the shared buffer, and the byte appears in the next event-buffer
read, contradicting the claim that write data never appear there. -/
theorem writeData_appears_in_read :
    (171 : Nat) ∈ (onI2CRequest (onI2CReceive [0x84, 171] emptyDev)).1 := by
  decide

/-- Amended claim C3: data bytes following the register-selector byte are
stored into the shared event buffer (bounds-checked against the capacity)
and are retained: a subsequent event-buffer read returns the previously
queued bytes followed by exactly those data bytes. -/
theorem writeData_retained (s : DevState) (d : List Nat)
    (h : s.i2cWriteIndex + d.length ≤ I2C_BUFFER_SIZE) :
    (onI2CRequest (onI2CReceive (0x84 :: d) s)).1 = readBytes s ++ d := by
  have hrec : onI2CReceive (0x84 :: d) s
      = d.foldl receiveData { s with currentRegister := 0x84 } := rfl
  obtain ⟨hb, _, hr⟩ := receiveAll_spec d { s with currentRegister := 0x84 } h
  have hreg : (onI2CReceive (0x84 :: d) s).currentRegister = 0x84 := by
    rw [hrec, hr]
  obtain ⟨hread, _⟩ := onI2CRequest_eventBuffer _ hreg
  rw [hread, hrec, hb]
  rfl

/-- Witness for the amended C3 at a concrete state and data list. -/
theorem writeData_retained_witness :
    devHalf.i2cWriteIndex + ([171, 9] : List Nat).length ≤ I2C_BUFFER_SIZE ∧
    (onI2CRequest (onI2CReceive (0x84 :: [171, 9]) devHalf)).1
      = readBytes devHalf ++ [171, 9] :=
  ⟨by decide, writeData_retained devHalf [171, 9] (by decide)⟩

/-!
Matrix scanner (`scanKeypad` in the source).  The column readings are the
scan's only input: `sensed row col = true` models
`digitalRead(COLS[col]) == LOW` while row `row` is driven low.  The row
driving, the settle delay and the mirror array `currentKeyState` (written
right before the comparison and otherwise unread) have no further effect
on the data; the per-key comparison in the source is
`currentKeyState[keyIndex] != lastKeyState[keyIndex]` with
`currentKeyState[keyIndex] = isPressed` just assigned.  The `events`
field records the `queueKeyEvent` calls in the order the source makes
them. -/

/-- `isPressed` as computed by the source for one key position. -/
def sensedVal (sensed : Nat → Nat → Bool) (row col : Nat) : Nat :=
  if sensed row col then 1 else 0

/-- The scanner's accumulating state: `lastKeyState` and the sequence of
`queueKeyEvent(keyIndex, isPressed)` calls made so far. -/
structure ScanAcc where
  lastKeyState : Nat → Nat
  events : List (Nat × Nat)

/-- The body of the inner column loop of `scanKeypad`: compute `keyIndex`
and `isPressed`, and on a state change update `lastKeyState` and emit the
event. -/
def scanCol (sensed : Nat → Nat → Bool) (row col : Nat) (a : ScanAcc) : ScanAcc :=
  if sensedVal sensed row col ≠ a.lastKeyState (row * COL_COUNT + col) then
    { lastKeyState := fun j =>
        if j = row * COL_COUNT + col then sensedVal sensed row col
        else a.lastKeyState j,
      events := a.events ++ [(row * COL_COUNT + col, sensedVal sensed row col)] }
  else
    a

/-- The body of the outer row loop of `scanKeypad`. -/
def scanRow (sensed : Nat → Nat → Bool) (row : Nat) (a : ScanAcc) : ScanAcc :=
  (List.range COL_COUNT).foldl (fun a col => scanCol sensed row col a) a

/-- `scanKeypad()` from the source: sweep rows 0..3, and inside each row
columns 0..2, starting from the stored `lastKeyState`. -/
def scanKeypad (sensed : Nat → Nat → Bool) (last : Nat → Nat) : ScanAcc :=
  (List.range ROW_COUNT).foldl (fun a row => scanRow sensed row a)
    { lastKeyState := last, events := [] }

/-- The (row, col) positions in the order the nested loops visit them. -/
def scanOrder : List (Nat × Nat) :=
  (List.range ROW_COUNT).flatMap (fun row =>
    (List.range COL_COUNT).map (fun col => (row, col)))

/-- The key index of a (row, col) position, `row * COL_COUNT + col`. -/
def keyOf (p : Nat × Nat) : Nat := p.1 * COL_COUNT + p.2

/-- Folding `scanCol` over an explicit list of positions. -/
def processKeys (sensed : Nat → Nat → Bool) (ps : List (Nat × Nat))
    (a : ScanAcc) : ScanAcc :=
  ps.foldl (fun a p => scanCol sensed p.1 p.2 a) a

lemma scanKeypad_eq_processKeys (sensed : Nat → Nat → Bool) (last : Nat → Nat) :
    scanKeypad sensed last
      = processKeys sensed scanOrder { lastKeyState := last, events := [] } := rfl

lemma scanCol_last_ne (sensed : Nat → Nat → Bool) (row col j : Nat)
    (a : ScanAcc) (hne : row * COL_COUNT + col ≠ j) :
    (scanCol sensed row col a).lastKeyState j = a.lastKeyState j := by
  unfold scanCol
  split
  · show (if j = row * COL_COUNT + col then sensedVal sensed row col
        else a.lastKeyState j) = a.lastKeyState j
    rw [if_neg (fun hj => hne hj.symm)]
  · rfl

lemma scanCol_last_self (sensed : Nat → Nat → Bool) (row col : Nat)
    (a : ScanAcc) :
    (scanCol sensed row col a).lastKeyState (row * COL_COUNT + col)
      = sensedVal sensed row col := by
  unfold scanCol
  split
  · show (if row * COL_COUNT + col = row * COL_COUNT + col
        then sensedVal sensed row col
        else a.lastKeyState (row * COL_COUNT + col)) = sensedVal sensed row col
    rw [if_pos rfl]
  · next hch => exact (not_not.mp hch).symm

lemma scanCol_events (sensed : Nat → Nat → Bool) (row col : Nat) (a : ScanAcc) :
    (scanCol sensed row col a).events
      = a.events ++
        (if sensedVal sensed row col ≠ a.lastKeyState (row * COL_COUNT + col)
         then [(row * COL_COUNT + col, sensedVal sensed row col)] else []) := by
  unfold scanCol
  split
  · rfl
  · rw [List.append_nil]

lemma processKeys_last_off (sensed : Nat → Nat → Bool) (ps : List (Nat × Nat)) :
    ∀ (a : ScanAcc) (j : Nat), (∀ p ∈ ps, keyOf p ≠ j) →
    (processKeys sensed ps a).lastKeyState j = a.lastKeyState j := by
  induction ps with
  | nil => intro a j _; rfl
  | cons p rest ih =>
      intro a j hoff
      have hstep : processKeys sensed (p :: rest) a
          = processKeys sensed rest (scanCol sensed p.1 p.2 a) := rfl
      rw [hstep, ih _ j (fun q hq => hoff q (List.mem_cons_of_mem p hq)),
        scanCol_last_ne sensed p.1 p.2 j a (hoff p (List.mem_cons_self p rest))]

lemma processKeys_last_on (sensed : Nat → Nat → Bool) (ps : List (Nat × Nat)) :
    ∀ (a : ScanAcc) (p0 : Nat × Nat), p0 ∈ ps → (ps.map keyOf).Nodup →
    (processKeys sensed ps a).lastKeyState (keyOf p0)
      = sensedVal sensed p0.1 p0.2 := by
  induction ps with
  | nil => intro a p0 hmem _; cases hmem
  | cons p rest ih =>
      intro a p0 hmem hnd
      rw [List.map_cons, List.nodup_cons] at hnd
      obtain ⟨hnotin, hndrest⟩ := hnd
      have hstep : processKeys sensed (p :: rest) a
          = processKeys sensed rest (scanCol sensed p.1 p.2 a) := rfl
      rcases List.mem_cons.mp hmem with heq | hmemrest
      · subst heq
        have hoff : ∀ q ∈ rest, keyOf q ≠ keyOf p0 := by
          intro q hq hk
          exact hnotin (hk ▸ List.mem_map_of_mem keyOf hq)
        rw [hstep, processKeys_last_off sensed rest _ _ hoff]
        exact scanCol_last_self sensed p0.1 p0.2 a
      · rw [hstep]
        exact ih _ p0 hmemrest hndrest

lemma processKeys_events (sensed : Nat → Nat → Bool) (ps : List (Nat × Nat)) :
    ∀ (a : ScanAcc) (g : Nat → Nat), (ps.map keyOf).Nodup →
    (∀ p ∈ ps, a.lastKeyState (keyOf p) = g (keyOf p)) →
    (processKeys sensed ps a).events
      = a.events ++ ps.filterMap (fun p =>
          if sensedVal sensed p.1 p.2 ≠ g (keyOf p)
          then some (keyOf p, sensedVal sensed p.1 p.2) else none) := by
  induction ps with
  | nil => intro a g _ _; simp [processKeys]
  | cons p rest ih =>
      intro a g hnd hag
      rw [List.map_cons, List.nodup_cons] at hnd
      obtain ⟨hnotin, hndrest⟩ := hnd
      have hstep : processKeys sensed (p :: rest) a
          = processKeys sensed rest (scanCol sensed p.1 p.2 a) := rfl
      have hagp : a.lastKeyState (keyOf p) = g (keyOf p) :=
        hag p (List.mem_cons_self p rest)
      have hrest : ∀ q ∈ rest,
          (scanCol sensed p.1 p.2 a).lastKeyState (keyOf q) = g (keyOf q) := by
        intro q hq
        have hne : p.1 * COL_COUNT + p.2 ≠ keyOf q := by
          intro hk
          have hk2 : keyOf p = keyOf q := hk
          exact hnotin (by rw [hk2]; exact List.mem_map_of_mem keyOf hq)
        rw [scanCol_last_ne sensed p.1 p.2 (keyOf q) a hne]
        exact hag q (List.mem_cons_of_mem p hq)
      rw [hstep, ih _ g hndrest hrest, scanCol_events, List.filterMap_cons,
        List.append_assoc]
      congr 1
      have hkg : a.lastKeyState (p.1 * COL_COUNT + p.2) = g (keyOf p) := hagp
      rw [hkg]
      by_cases hch : sensedVal sensed p.1 p.2 ≠ g (keyOf p)
      · rw [if_pos hch]
        have hsome : (if sensedVal sensed p.1 p.2 ≠ g (keyOf p)
            then some (keyOf p, sensedVal sensed p.1 p.2) else none)
            = some (keyOf p, sensedVal sensed p.1 p.2) := if_pos hch
        rw [hsome]
        rfl
      · rw [if_neg hch]
        have hnone : (if sensedVal sensed p.1 p.2 ≠ g (keyOf p)
            then some (keyOf p, sensedVal sensed p.1 p.2) else none)
            = none := if_neg hch
        rw [hnone]
        rfl

/-- Claim C2: one call of the scan operation emits exactly one event per
key whose sensed state differs from its stored previous state — the event
stream is the filterMap of the edge test over the row-major-then
column-major scan order — updates the stored state of every key to the
sensed value, and a second scan with the same sensed states emits no
events. -/
theorem scanKeypad_edgeTriggered (sensed : Nat → Nat → Bool) (last : Nat → Nat) :
    (scanKeypad sensed last).events
      = scanOrder.filterMap (fun p =>
          if sensedVal sensed p.1 p.2 ≠ last (keyOf p)
          then some (keyOf p, sensedVal sensed p.1 p.2) else none) ∧
    (∀ row col, row < ROW_COUNT → col < COL_COUNT →
      (scanKeypad sensed last).lastKeyState (row * COL_COUNT + col)
        = sensedVal sensed row col) ∧
    (scanKeypad sensed (scanKeypad sensed last).lastKeyState).events = [] := by
  have hnd : (scanOrder.map keyOf).Nodup := by decide
  refine ⟨?_, ?_, ?_⟩
  · rw [scanKeypad_eq_processKeys,
      processKeys_events sensed scanOrder _ last hnd (fun p _ => rfl)]
    exact List.nil_append _
  · intro row col hrow hcol
    have hmem : (row, col) ∈ scanOrder := by
      unfold scanOrder
      simp only [List.mem_flatMap, List.mem_map, List.mem_range]
      exact ⟨row, hrow, col, hcol, rfl⟩
    rw [scanKeypad_eq_processKeys]
    exact processKeys_last_on sensed scanOrder _ (row, col) hmem hnd
  · have key : ∀ p ∈ scanOrder,
        (scanKeypad sensed last).lastKeyState (keyOf p)
          = sensedVal sensed p.1 p.2 := by
      intro p hp
      rw [scanKeypad_eq_processKeys]
      exact processKeys_last_on sensed scanOrder _ p hp hnd
    rw [scanKeypad_eq_processKeys sensed (scanKeypad sensed last).lastKeyState,
      processKeys_events sensed scanOrder
        { lastKeyState := (scanKeypad sensed last).lastKeyState, events := [] }
        (scanKeypad sensed last).lastKeyState hnd (fun p _ => rfl),
      List.nil_append]
    apply List.filterMap_eq_nil_iff.mpr
    intro p hp
    rw [key p hp]
    simp

/-!
Sleep/wake control loop (`loop()` and `enterSleep()` in the source).
Time is the value of `millis()` passed in at each read; the scan's column
readings are the `sensed` input as for `scanKeypad`.
-/

/-- Constant from the source: `#define SCAN_INTERVAL_MS 10`. -/
def SCAN_INTERVAL_MS : Nat := 10

/-- Constant from the source: `#define DEBOUNCE_MS 20`. -/
def DEBOUNCE_MS : Nat := 20

/-- Enable flags of the six on-chip subsystems touched by `enterSleep`
(`power_*_disable` / `power_*_enable`); `true` means enabled. -/
structure Power where
  timer0 : Bool
  timer1 : Bool
  timer2 : Bool
  spi : Bool
  usart0 : Bool
  adc : Bool

/-- All six subsystems enabled. -/
def powerAllOn : Power :=
  { timer0 := true, timer1 := true, timer2 := true, spi := true,
    usart0 := true, adc := true }

/-- Firmware state seen by the control loop: the wake flag, the scan
timestamp, the per-key stored states, the I2C/queue state, the subsystem
enables, and the row drive level (`true` = all rows idle high). -/
structure Sys where
  systemWakeUp : Bool
  lastScanTime : Nat
  lastKeyState : Nat → Nat
  dev : DevState
  power : Power
  rowsHigh : Bool

/-- `enterSleep()` from the source: disable the six subsystems, drive all
rows low to arm wake detection, halt at `sleep_cpu()` — execution resumes
only when an interrupt fires, and both wake-line handlers
(`ISR(INT0_vect)`, `ISR(INT1_vect)`) set `systemWakeUp` — then re-enable
only timer0 and usart0 and restore the rows to high. -/
def enterSleep (s : Sys) : Sys :=
  let s1 := { s with power := { timer0 := false, timer1 := false, timer2 := false, spi := false, usart0 := false, adc := false } }
  let s2 := { s1 with rowsHigh := false }
  let s3 := { s2 with systemWakeUp := true }
  let s4 := { s3 with power := { s3.power with timer0 := true, usart0 := true } }
  { s4 with rowsHigh := true }

/-- The effect of one `scanKeypad()` call on the firmware state: the
stored key states are updated and the emitted events are queued, in
order, through `queueKeyEvent`. -/
def scanStep (sensed : Nat → Nat → Bool) (s : Sys) : Sys :=
  { s with
    lastKeyState := (scanKeypad sensed s.lastKeyState).lastKeyState,
    dev := enqueueAll (scanKeypad sensed s.lastKeyState).events s.dev }

/-- One iteration of `loop()` from the source.  `now` is `millis()` at the
scan-cadence check, `now2` is `millis()` at the final debounce check.  The
returned Boolean records whether this iteration called `enterSleep` (it
did exactly when no wake flag was pending); it is trace instrumentation,
not program state.  The final source statement
`if (millis() - lastScanTime > DEBOUNCE_MS) { /* Ready for next sleep */ }`
has an empty body, so it changes nothing. -/
def loop (sensed : Nat → Nat → Bool) (now now2 : Nat) (s : Sys) : Sys × Bool :=
  let s1 := if s.systemWakeUp then s else enterSleep s
  let s2 := { s1 with systemWakeUp := false }
  let s3 := if SCAN_INTERVAL_MS ≤ now - s2.lastScanTime
            then { scanStep sensed s2 with lastScanTime := now }
            else s2
  let _ready := DEBOUNCE_MS < now2 - s3.lastScanTime
  (s3, !s.systemWakeUp)

/-- A concrete just-woken state: the wake flag has been consumed, the last
scan ran at 100 ms, everything is powered and the rows are idle high. -/
def sysAwake : Sys :=
  { systemWakeUp := false, lastScanTime := 100, lastKeyState := fun _ => 0,
    dev := emptyDev, power := powerAllOn, rowsHigh := true }

/-- Claim C4 fails on the code: from a just-woken state, the very next
loop iteration at 101 ms — 1 ms after the last scan, inside the 20 ms
post-wake hold window — calls `enterSleep` (observable both in the trace
flag and in the ADC being left disabled afterwards), because the
hold-window check in `loop()` has an empty body. -/
theorem loop_reenters_sleep_within_hold_window :
    101 - sysAwake.lastScanTime ≤ DEBOUNCE_MS ∧
    (loop (fun _ _ => false) 101 101 sysAwake).2 = true ∧
    (loop (fun _ _ => false) 101 101 sysAwake).1.power.adc = false := by
  decide

/-- Counterexample to claim C5: the ADC is enabled before `enterSleep`,
is disabled by it, and is still disabled after the routine returns. -/
theorem enterSleep_leaves_adc_disabled :
    sysAwake.power.adc = true ∧ (enterSleep sysAwake).power.adc = false := by
  decide

/-- Amended claim C5: after the sleep routine returns, only timer0 and
usart0 are re-enabled — timer1, timer2, SPI and ADC remain disabled —
all matrix rows are restored to the idle (high) level, the wake flag is
set by the wake interrupt, and the loop clears the wake flag right after
`enterSleep` returns. -/
theorem enterSleep_resume_state (s : Sys) (sensed : Nat → Nat → Bool)
    (now now2 : Nat) :
    (enterSleep s).power.timer0 = true ∧
    (enterSleep s).power.usart0 = true ∧
    (enterSleep s).power.timer1 = false ∧
    (enterSleep s).power.timer2 = false ∧
    (enterSleep s).power.spi = false ∧
    (enterSleep s).power.adc = false ∧
    (enterSleep s).rowsHigh = true ∧
    (enterSleep s).systemWakeUp = true ∧
    (loop sensed now now2 s).1.systemWakeUp = false := by
  refine ⟨rfl, rfl, rfl, rfl, rfl, rfl, rfl, rfl, ?_⟩
  simp only [loop]
  split <;> split <;> rfl
